import Mathlib

/-!
# IRremote-STM32, receive side: `IRremote_port/IRremote/irRecv.c`

A shallow embedding of the mainline (non-interrupt) operations of the IR
receiver: `IRrecv_decode`, `IRrecv_IRrecvInit`, `IRrecv_IRrecvInitBlink`,
`IRrecv_enableIRIn`, `IRrecv_isIdle`, `IRrecv_resume`, `IRrecv_compare` and
`IRrecv_decodeHash`, followed by theorems about them.

Conventions of the embedding.

* The target is a 32-bit ARM (STM32F4): `int`, `unsigned int`, `long` and
  `unsigned long` are 32 bits wide.  Unsigned values are natural numbers; the
  `long` accumulator of the hash is represented by its 32-bit pattern, a natural
  number below `2 ^ 32`, and its multiplication wraps (`% 2 ^ 32`).
* `double` is IEEE 754 binary64 with round-to-nearest-even.  The only floating
  point operation of the file, `x * .8` for an `unsigned int` `x`, is modelled
  exactly: see `roundBinary64` and `mulPoint8`.
* The global `irparams` and the structure behind the `results` pointer are
  passed in and returned explicitly.
* `results->rawbuf` is a pointer to `irparams.rawbuf`.  None of the mainline
  operations writes to the buffer, so the pointer is represented by the
  contents it points to, a function from index to tick count.
-/

namespace IRremote

/-! ## Types declared in the headers -/

/-- Modelled from the spec: the header that declares the `IR_STATE_` constants is
not among the sources.  Section 3 of the specification gives the phases of the
capture state machine as IDLE, RECEIVING and STOPPED; the source file names the
first and the last `IR_STATE_IDLE` and `IR_STATE_STOP`. -/
inductive rcvstate_t where
  | IR_STATE_IDLE
  | IR_STATE_RECEIVING
  | IR_STATE_STOP
  deriving DecidableEq, Repr

/-- Modelled from the spec: the header that declares `decode_type_t` is not among
the sources.  The protocol kinds are the hash fallback `UNKNOWN` and the three
fixed protocols the coordinator dispatches to. -/
inductive decode_type_t where
  | UNKNOWN
  | SONY
  | RC5
  | RC6
  deriving DecidableEq, Repr

/-- Modelled from the spec: the capture state `irparams` (its declaration is in a
header that is not among the sources).  The fields are those the source file
reads or writes.  Ports are represented by their address, `rawbuf` by its
contents. -/
structure irparams_t where
  rcvstate : rcvstate_t
  recvpinport : Nat
  recvpin : Nat
  blinkpinport : Nat
  blinkpin : Nat
  blinkflag : Nat
  rawlen : Nat
  rawbuf : Nat → Nat
  overflow : Nat

/-- Modelled from the spec: the decode result `ir_decode_results` (its declaration
is in a header that is not among the sources).  The fields are those the source
file reads or writes. -/
structure ir_decode_results where
  decode_type : decode_type_t
  value : Nat
  bits : Nat
  rawbuf : Nat → Nat
  rawlen : Nat
  overflow : Nat

/-! ## `x * .8` in binary64 -/

/-- The significand of the binary64 constant `.8`: the double nearest to 4/5 is
`POINT8 / 2 ^ 53` (bit pattern `0x3FE999999999999A`). -/
def POINT8 : Nat := 7205759403792794

/-- Number of low-order bits that do not fit into a 53-bit significand: the
least `s` with `n / 2 ^ s < 2 ^ 53`.  The first argument bounds the number of
halvings and is always supplied as `n` itself. -/
def excessBits : Nat → Nat → Nat
  | 0, _ => 0
  | fuel + 1, n => if n < 2 ^ 53 then 0 else excessBits fuel (n / 2) + 1

/-- Rounding of the natural number `n` to 53 significant bits, to nearest, ties
to even: the binary64 rounding of any real `n / 2 ^ e` in the normal range is
`roundBinary64 n / 2 ^ e`. -/
def roundBinary64 (n : Nat) : Nat :=
  let s := excessBits n n
  let q := n / 2 ^ s
  let r := n % 2 ^ s
  if 2 ^ s < 2 * r ∨ (2 * r = 2 ^ s ∧ q % 2 = 1) then (q + 1) * 2 ^ s else q * 2 ^ s

/-- The double `v * .8` for an unsigned integer `v`, in units of `2 ^ (-53)`:
the conversion of `v` to double is exact, the exact product is
`v * POINT8 / 2 ^ 53`, and the multiplication rounds it. -/
def mulPoint8 (v : Nat) : Nat := roundBinary64 (v * POINT8)

/-! ## The operations of `irRecv.c` -/

/-- Source: `IRrecv_compare` (lines 155-160).  `newval < oldval * .8` compares the
integer `newval`, converted exactly to double, with the double `oldval * .8`. -/
def IRrecv_compare (oldval newval : Nat) : Nat :=
  if newval * 2 ^ 53 < mulPoint8 oldval then 0
  else if oldval * 2 ^ 53 < mulPoint8 newval then 2
  else 1

/-- Source: line 168. -/
def IR_FNV_PRIME_32 : Nat := 16777619

/-- Source: line 169. -/
def IR_FNV_BASIS_32 : Nat := 2166136261

/-- Source: the `for` loop of `IRrecv_decodeHash` (lines 178-182), entered with
loop variable `i` and accumulator `hash`. -/
def decodeHash_loop (rawbuf : Nat → Nat) (rawlen : Nat) (i hash : Nat) : Nat :=
  if i + 2 < rawlen then
    let value := IRrecv_compare (rawbuf i) (rawbuf (i + 2))
    decodeHash_loop rawbuf rawlen (i + 1) (((hash * IR_FNV_PRIME_32) % 2 ^ 32) ^^^ value)
  else hash
termination_by rawlen - i

/-- Source: `IRrecv_decodeHash` (lines 171-189).  Returns the return code and the
structure behind `results` as the call leaves it. -/
def IRrecv_decodeHash (results : ir_decode_results) : Nat × ir_decode_results :=
  let hash := IR_FNV_BASIS_32
  if results.rawlen < 6 then (0, results)
  else
    let hash := decodeHash_loop results.rawbuf results.rawlen 1 hash
    (1, { results with value := hash, bits := 32, decode_type := decode_type_t.UNKNOWN })

/-- Source: `IRrecv_resume` (lines 132-136). -/
def IRrecv_resume (irparams : irparams_t) : irparams_t :=
  { irparams with rcvstate := rcvstate_t.IR_STATE_IDLE, rawlen := 0 }

/-- A fixed-protocol decoder (`IRrecv_decodeSony`, `IRrecv_decodeRC5`,
`IRrecv_decodeRC6`; their bodies are in other files): it receives the structure
behind `results` and yields its return code and the structure as it leaves it.
It has no access to `irparams`. -/
abbrev decoder_t := ir_decode_results → Nat × ir_decode_results

/-- The compile-time configuration of `IRrecv_decode`: for each of
`IR_DECODE_SONY`, `IR_DECODE_RC5`, `IR_DECODE_RC6` either `none` (the flag is 0,
the call is compiled out) or the decoder that is called. -/
structure decoders_t where
  IRrecv_decodeSony : Option decoder_t
  IRrecv_decodeRC5 : Option decoder_t
  IRrecv_decodeRC6 : Option decoder_t

/-- One `#if IR_DECODE_X ... #endif` block of `IRrecv_decode`: a decoder that is
compiled out contributes nothing, which is the same as declining. -/
def attempt (dec : Option decoder_t) (results : ir_decode_results) :
    Nat × ir_decode_results :=
  match dec with
  | none => (0, results)
  | some f => f results

/-- Source: `IRrecv_decode` (lines 11-42).  Returns the return code, `irparams`
after the call and the structure behind `results` after the call. -/
def IRrecv_decode (cfg : decoders_t) (irparams : irparams_t) (results : ir_decode_results) :
    Nat × irparams_t × ir_decode_results :=
  let results := { results with
    rawbuf := irparams.rawbuf, rawlen := irparams.rawlen, overflow := irparams.overflow }
  if irparams.rcvstate ≠ rcvstate_t.IR_STATE_STOP then (0, irparams, results)
  else
    let sony := attempt cfg.IRrecv_decodeSony results
    if sony.1 ≠ 0 then (1, irparams, sony.2)
    else
      let rc5 := attempt cfg.IRrecv_decodeRC5 sony.2
      if rc5.1 ≠ 0 then (1, irparams, rc5.2)
      else
        let rc6 := attempt cfg.IRrecv_decodeRC6 rc5.2
        if rc6.1 ≠ 0 then (1, irparams, rc6.2)
        else
          let hash := IRrecv_decodeHash rc6.2
          if hash.1 ≠ 0 then (1, irparams, hash.2)
          else (0, IRrecv_resume irparams, hash.2)


/-! ## Vocabulary of the statements -/

/-- The recurrence of the specification of the hash decoder, written from its
words: `h_0 = 2166136261` and
`h_k = ((h_(k-1) * 16777619) mod 2 ^ 32) XOR IRrecv_compare rawbuf[k] rawbuf[k+2]`. -/
def hashFold (rawbuf : Nat → Nat) : Nat → Nat
  | 0 => 2166136261
  | k + 1 =>
    ((hashFold rawbuf k * 16777619) % 2 ^ 32) ^^^ IRrecv_compare (rawbuf (k + 1)) (rawbuf (k + 3))

/-- The fold of the specification over an explicit list of ternary symbols:
`fold(h, [c_1, ..., c_m])`. -/
def symbolFold (h : Nat) (symbols : List Nat) : Nat :=
  symbols.foldl (fun acc c => ((acc * 16777619) % 2 ^ 32) ^^^ c) h

/-- The result shell after the first three assignments of `IRrecv_decode`
(lines 13-15): the caller's structure with the capture state copied in. -/
def snapshot (irparams : irparams_t) (results : ir_decode_results) : ir_decode_results :=
  { results with
    rawbuf := irparams.rawbuf, rawlen := irparams.rawlen, overflow := irparams.overflow }

/-- Outcome of the Sony block on the result shell `r`. -/
def afterSony (cfg : decoders_t) (r : ir_decode_results) : Nat × ir_decode_results :=
  attempt cfg.IRrecv_decodeSony r

/-- Outcome of the RC5 block, run on what the Sony block left. -/
def afterRC5 (cfg : decoders_t) (r : ir_decode_results) : Nat × ir_decode_results :=
  attempt cfg.IRrecv_decodeRC5 (afterSony cfg r).2

/-- Outcome of the RC6 block, run on what the RC5 block left. -/
def afterRC6 (cfg : decoders_t) (r : ir_decode_results) : Nat × ir_decode_results :=
  attempt cfg.IRrecv_decodeRC6 (afterRC5 cfg r).2

/-- Every enabled fixed-protocol decoder declines (returns 0) when the decoders
are run in source order on the result shell `r`. -/
def allFixedDecline (cfg : decoders_t) (r : ir_decode_results) : Prop :=
  (afterSony cfg r).1 = 0 ∧ (afterRC5 cfg r).1 = 0 ∧ (afterRC6 cfg r).1 = 0

/-- A decoder leaves the captured data alone: the buffer, its length and the
overflow flag held by the result are the same after the call as before. -/
def keepsCapture (f : decoder_t) : Prop :=
  ∀ r, (f r).2.rawbuf = r.rawbuf ∧ (f r).2.rawlen = r.rawlen ∧ (f r).2.overflow = r.overflow

/-- Every enabled fixed-protocol decoder leaves the captured data alone. -/
def decoders_t.keepCapture (cfg : decoders_t) : Prop :=
  ∀ f, (cfg.IRrecv_decodeSony = some f ∨ cfg.IRrecv_decodeRC5 = some f ∨
    cfg.IRrecv_decodeRC6 = some f) → keepsCapture f

/-- A decoder reports its own protocol kind: whenever it accepts (returns
nonzero) the decode_type it leaves is not `UNKNOWN`. -/
def reportsKind (f : decoder_t) : Prop :=
  ∀ r, (f r).1 ≠ 0 → (f r).2.decode_type ≠ decode_type_t.UNKNOWN

/-- Every enabled fixed-protocol decoder reports its own protocol kind. -/
def decoders_t.reportKind (cfg : decoders_t) : Prop :=
  ∀ f, (cfg.IRrecv_decodeSony = some f ∨ cfg.IRrecv_decodeRC5 = some f ∨
    cfg.IRrecv_decodeRC6 = some f) → reportsKind f

/-- The result `results` with every duration of its buffer multiplied by `k`. -/
def scaleBuffer (k : Nat) (results : ir_decode_results) : ir_decode_results :=
  { results with rawbuf := fun i => k * results.rawbuf i }

/-! ## Concrete inputs -/

/-- A result holding seven entries, all durations equal to 10. -/
def results7 : ir_decode_results :=
  { decode_type := decode_type_t.SONY, value := 5, bits := 12,
    rawbuf := fun _ => 10, rawlen := 7, overflow := 0 }

/-- A result holding five entries. -/
def results5 : ir_decode_results :=
  { decode_type := decode_type_t.RC5, value := 77, bits := 13,
    rawbuf := fun i => 20 + i, rawlen := 5, overflow := 0 }

/-- A capture state with a completed message of `n` entries, all durations 10. -/
def stopped (n : Nat) : irparams_t :=
  { rcvstate := rcvstate_t.IR_STATE_STOP, recvpinport := 1073872896, recvpin := 4,
    blinkpinport := 1073873920, blinkpin := 8, blinkflag := 0,
    rawlen := n, rawbuf := fun _ => 10, overflow := 0 }

/-- A capture state in the middle of a reception. -/
def receiving : irparams_t :=
  { stopped 3 with rcvstate := rcvstate_t.IR_STATE_RECEIVING }

/-- A configuration with every fixed-protocol decoder compiled out. -/
def noDecoders : decoders_t :=
  { IRrecv_decodeSony := none, IRrecv_decodeRC5 := none, IRrecv_decodeRC6 := none }

/-- A configuration whose enabled decoders all decline and write nothing. -/
def decliners : decoders_t :=
  { IRrecv_decodeSony := some (fun r => (0, r)), IRrecv_decodeRC5 := none,
    IRrecv_decodeRC6 := some (fun r => (0, r)) }

/-- A configuration in which Sony declines and RC5 and RC6 both accept, each
reporting its own protocol kind. -/
def rc5First : decoders_t :=
  { IRrecv_decodeSony := some (fun r => (0, r)),
    IRrecv_decodeRC5 :=
      some (fun r => (1, { r with decode_type := decode_type_t.RC5, value := 1234, bits := 13 })),
    IRrecv_decodeRC6 :=
      some (fun r => (1, { r with decode_type := decode_type_t.RC6, value := 99, bits := 20 })) }

/-! ## Further operations of `irRecv.c` -/

/-- Source: `IRrecv_IRrecvInit` (lines 45-50). -/
def IRrecv_IRrecvInit (recvpinport recvpin : Nat) (irparams : irparams_t) : irparams_t :=
  { irparams with recvpinport := recvpinport, recvpin := recvpin, blinkflag := 0 }

/-- Source: `IRrecv_IRrecvInitBlink` (lines 52-67).  The call of `HAL_GPIO_Init`
configures the blink pin and does not touch `irparams`. -/
def IRrecv_IRrecvInitBlink (recvpinport recvpin blinkpinport blinkpin : Nat)
    (irparams : irparams_t) : irparams_t :=
  { irparams with
    recvpinport := recvpinport, recvpin := recvpin,
    blinkpinport := blinkpinport, blinkpin := blinkpin, blinkflag := 0 }

/-- The behaviour of the peripheral library during `IRrecv_enableIRIn` (the HAL
and `Error_Handler` are not among the sources): whether each of the three timer
calls returns `HAL_OK`, and whether `Error_Handler` returns to its caller or
halts. -/
structure hal_t where
  HAL_TIM_Base_Init_ok : Bool
  HAL_TIM_ConfigClockSource_ok : Bool
  HAL_TIM_Base_Start_IT_ok : Bool
  Error_Handler_returns : Bool

/-- Source: `IRrecv_enableIRIn` (lines 74-120).  The HAL calls configure the timer,
the interrupt controller and the receive pin and do not touch `irparams`.  The
result is `none` when a timer call fails and `Error_Handler` halts, so that the
function never returns; otherwise it is `irparams` after the call. -/
def IRrecv_enableIRIn (hal : hal_t) (irparams : irparams_t) : Option irparams_t :=
  if hal.HAL_TIM_Base_Init_ok = false ∧ hal.Error_Handler_returns = false then none
  else if hal.HAL_TIM_ConfigClockSource_ok = false ∧ hal.Error_Handler_returns = false then none
  else if hal.HAL_TIM_Base_Start_IT_ok = false ∧ hal.Error_Handler_returns = false then none
  else some { irparams with rcvstate := rcvstate_t.IR_STATE_IDLE, rawlen := 0 }

/-- Source: `IRrecv_isIdle` (lines 125-128).  Returns the return value and
`irparams` after the call. -/
def IRrecv_isIdle (irparams : irparams_t) : Nat × irparams_t :=
  (if irparams.rcvstate = rcvstate_t.IR_STATE_IDLE ∨
      irparams.rcvstate = rcvstate_t.IR_STATE_STOP then 1 else 0, irparams)

/-- The `for` loop of `IRrecv_decodeHash` instrumented: besides the accumulator it
records, in order, every index of `rawbuf` it reads and counts its iterations. -/
def decodeHash_loop_traced (rawbuf : Nat → Nat) (rawlen : Nat) (i hash : Nat)
    (reads : List Nat) (count : Nat) : Nat × List Nat × Nat :=
  if i + 2 < rawlen then
    let value := IRrecv_compare (rawbuf i) (rawbuf (i + 2))
    decodeHash_loop_traced rawbuf rawlen (i + 1)
      (((hash * IR_FNV_PRIME_32) % 2 ^ 32) ^^^ value) (reads ++ [i, i + 2]) (count + 1)
  else (hash, reads, count)
termination_by rawlen - i

/-- The `for` loop of `IRrecv_decodeHash` with an accumulator that is `w` bits
wide instead of 32. -/
def decodeHash_loop_width (w : Nat) (rawbuf : Nat → Nat) (rawlen : Nat) (i hash : Nat) : Nat :=
  if i + 2 < rawlen then
    let value := IRrecv_compare (rawbuf i) (rawbuf (i + 2))
    decodeHash_loop_width w rawbuf rawlen (i + 1) (((hash * IR_FNV_PRIME_32) % 2 ^ w) ^^^ value)
  else hash
termination_by rawlen - i

/-- The `for` loop of `IRrecv_decodeHash` with an accumulator of unbounded
width. -/
def decodeHash_loop_unbounded (rawbuf : Nat → Nat) (rawlen : Nat) (i hash : Nat) : Nat :=
  if i + 2 < rawlen then
    let value := IRrecv_compare (rawbuf i) (rawbuf (i + 2))
    decodeHash_loop_unbounded rawbuf rawlen (i + 1) ((hash * IR_FNV_PRIME_32) ^^^ value)
  else hash
termination_by rawlen - i

/-- The capture-state invariant of the specification, for a buffer of `capacity`
entries: `rawlen <= capacity`, and `rcvstate = IR_STATE_IDLE` implies
`rawlen = 0`. -/
def captureInvariant (capacity : Nat) (irparams : irparams_t) : Prop :=
  irparams.rawlen ≤ capacity ∧
    (irparams.rcvstate = rcvstate_t.IR_STATE_IDLE → irparams.rawlen = 0)

/-- One step of the fold of the specification:
`h -> ((h * 16777619) mod 2 ^ 32) XOR c`. -/
def hashStep (h c : Nat) : Nat := ((h * 16777619) % 2 ^ 32) ^^^ c

/-- The comparison symbol of position `i` of a buffer:
`IRrecv_compare rawbuf[i] rawbuf[i+2]`. -/
def symbolAt (rawbuf : Nat → Nat) (i : Nat) : Nat :=
  IRrecv_compare (rawbuf i) (rawbuf (i + 2))

/-- A capture state whose buffer overflowed at a capacity of 100 entries. -/
def overflowed : irparams_t :=
  { stopped 100 with overflow := 1 }

/-- The five-entry result with other previous contents of its output fields. -/
def results5b : ir_decode_results :=
  { results5 with decode_type := decode_type_t.SONY, value := 78, bits := 12 }

/-- The seven-entry buffer of tens with its first duration doubled. -/
def results7b : ir_decode_results :=
  { results7 with rawbuf := fun i => if i = 1 then 20 else 10 }

/-- A peripheral library whose timer calls all succeed. -/
def halOk : hal_t :=
  { HAL_TIM_Base_Init_ok := true, HAL_TIM_ConfigClockSource_ok := true,
    HAL_TIM_Base_Start_IT_ok := true, Error_Handler_returns := false }

/-! ## Rounding lemmas -/

theorem excessBits_spec (fuel n : Nat) (h : n ≤ fuel) :
    n < 2 ^ (53 + excessBits fuel n) ∧
      (excessBits fuel n = 0 ∨ 2 ^ (52 + excessBits fuel n) ≤ n) := by
  induction fuel generalizing n with
  | zero =>
    have : n = 0 := by omega
    subst this
    simp [excessBits]
  | succ fuel ih =>
    unfold excessBits
    by_cases hn : n < 2 ^ 53
    · rw [if_pos hn]
      exact ⟨by simpa using hn, Or.inl rfl⟩
    · rw [if_neg hn]
      have hle : n / 2 ≤ fuel := by
        have : 0 < n := by
          have : 0 < 2 ^ 53 := by positivity
          omega
        omega
      obtain ⟨h1, h2⟩ := ih (n / 2) hle
      have e1 : 2 ^ (53 + (excessBits fuel (n / 2) + 1)) = 2 * 2 ^ (53 + excessBits fuel (n / 2)) := by
        rw [← Nat.add_assoc, Nat.pow_succ]; omega
      have e2 : 2 ^ (52 + (excessBits fuel (n / 2) + 1)) = 2 * 2 ^ (52 + excessBits fuel (n / 2)) := by
        rw [← Nat.add_assoc, Nat.pow_succ]; omega
      refine ⟨by rw [e1]; omega, Or.inr ?_⟩
      rw [e2]
      rcases h2 with h2 | h2
      · rw [h2]; simp at hn ⊢; omega
      · omega

theorem roundBinary64_near (n : Nat) :
    2 * roundBinary64 n ≤ 2 * n + 2 ^ excessBits n n ∧
      2 * n ≤ 2 * roundBinary64 n + 2 ^ excessBits n n := by
  unfold roundBinary64
  simp only
  generalize hT : 2 ^ excessBits n n = T
  have hTpos : 0 < T := by rw [← hT]; positivity
  have hdm : T * (n / T) + n % T = n := Nat.div_add_mod n T
  have hr : n % T < T := Nat.mod_lt _ hTpos
  generalize n / T = q at hdm ⊢
  generalize n % T = r at hdm hr ⊢
  have e1 : (q + 1) * T = T * q + T := by ring
  have e2 : q * T = T * q := by ring
  split
  · rename_i hc
    rw [e1]
    rcases hc with hc | ⟨hc, _⟩ <;> constructor <;> omega
  · rename_i hc
    rw [e2]
    have h1 : ¬ T < 2 * r := fun h => hc (Or.inl h)
    constructor <;> omega

theorem roundBinary64_exact (n k d : Nat) (hn : n = k * 2 ^ excessBits n n + d)
    (hd : 2 * d < 2 ^ excessBits n n) : roundBinary64 n = k * 2 ^ excessBits n n := by
  unfold roundBinary64
  simp only
  generalize hT : 2 ^ excessBits n n = T at hn hd ⊢
  have hTpos : 0 < T := by rw [← hT]; positivity
  have hq : n / T = k := by
    rw [hn, Nat.add_comm, Nat.add_mul_div_right _ _ hTpos, Nat.div_eq_of_lt (by omega)]; simp
  have hr : n % T = d := by
    rw [hn, Nat.add_comm, Nat.add_mul_mod_self_right, Nat.mod_eq_of_lt (by omega)]
  rw [hq, hr]
  have : ¬ (T < 2 * d ∨ 2 * d = T ∧ k % 2 = 1) := by
    rintro (h | ⟨h, _⟩) <;> omega
  simp [this]

theorem mulPoint8_lt_iff (a b : Nat) (ha : a < 2 ^ 32) :
    b * 2 ^ 53 < mulPoint8 a ↔ 5 * b < 4 * a := by
  unfold mulPoint8
  have h5 : 5 * (a * POINT8) = a * 2 ^ 55 + 2 * a := by unfold POINT8; omega
  generalize a * POINT8 = n at h5
  obtain ⟨hup, hlow⟩ := excessBits_spec n n (Nat.le_refl n)
  have hnear := roundBinary64_near n
  have hexact := roundBinary64_exact n
  generalize excessBits n n = s at hup hlow hnear hexact
  have hs : s ≤ 32 := by
    rcases hlow with h0 | hl
    · omega
    · have hlt : 2 ^ (52 + s) < 2 ^ 85 := by omega
      have := (Nat.pow_lt_pow_iff_right (by decide : 1 < 2)).1 hlt
      omega
  have hT : 2 ^ s ≤ 2 ^ 32 := Nat.pow_le_pow_right (by decide) hs
  have hsplit : 2 ^ (53 - s) * 2 ^ s = 2 ^ 53 := by
    rw [← Nat.pow_add]; congr 1; omega
  have hup2 : n < 2 ^ 53 * 2 ^ s := by rw [← Nat.pow_add]; exact hup
  generalize 2 ^ s = T at hnear hexact hT hsplit hup2
  constructor
  · intro h
    by_contra hc
    rcases Nat.lt_or_ge (4 * a) (5 * b) with hgt | hle
    · omega
    · have heq : 5 * b = 4 * a := by omega
      have hn : n = b * 2 ^ (53 - s) * T + b / 2 := by
        rw [Nat.mul_assoc, hsplit]; omega
      have hbT : b < T := by
        have : 2 ^ 53 * b < 2 ^ 53 * T := by omega
        exact Nat.lt_of_mul_lt_mul_left this
      have := hexact (b * 2 ^ (53 - s)) (b / 2) hn (by omega)
      rw [this, Nat.mul_assoc, hsplit] at h
      omega
  · intro h
    omega

/-- On 32-bit arguments the floating-point comparisons of `IRrecv_compare` decide
the integer inequalities `5 * newval < 4 * oldval` and `5 * oldval < 4 * newval`. -/
theorem IRrecv_compare_eq_band (a b : Nat) (ha : a < 2 ^ 32) (hb : b < 2 ^ 32) :
    IRrecv_compare a b = if 5 * b < 4 * a then 0 else if 5 * a < 4 * b then 2 else 1 := by
  unfold IRrecv_compare
  simp only [mulPoint8_lt_iff a b ha, mulPoint8_lt_iff b a hb]

theorem IRrecv_compare_scale (k a b : Nat) (hk : 1 ≤ k) (ha : k * a < 2 ^ 32)
    (hb : k * b < 2 ^ 32) : IRrecv_compare (k * a) (k * b) = IRrecv_compare a b := by
  have ha0 : a < 2 ^ 32 := lt_of_le_of_lt (Nat.le_mul_of_pos_left a hk) ha
  have hb0 : b < 2 ^ 32 := lt_of_le_of_lt (Nat.le_mul_of_pos_left b hk) hb
  rw [IRrecv_compare_eq_band _ _ ha hb, IRrecv_compare_eq_band _ _ ha0 hb0]
  have e1 : 5 * (k * b) < 4 * (k * a) ↔ 5 * b < 4 * a := by
    rw [show 5 * (k * b) = k * (5 * b) by ring, show 4 * (k * a) = k * (4 * a) by ring]
    exact Nat.mul_lt_mul_left hk
  have e2 : 5 * (k * a) < 4 * (k * b) ↔ 5 * a < 4 * b := by
    rw [show 5 * (k * a) = k * (5 * a) by ring, show 4 * (k * b) = k * (4 * b) by ring]
    exact Nat.mul_lt_mul_left hk
  simp only [e1, e2]

/-! ## Lemmas on the hash loop -/

theorem decodeHash_loop_step (rawbuf : Nat → Nat) (rawlen i hash : Nat) (h : i + 2 < rawlen) :
    decodeHash_loop rawbuf rawlen i hash =
      decodeHash_loop rawbuf rawlen (i + 1)
        (((hash * IR_FNV_PRIME_32) % 2 ^ 32) ^^^ IRrecv_compare (rawbuf i) (rawbuf (i + 2))) := by
  rw [decodeHash_loop]
  simp only [h, if_true]

theorem decodeHash_loop_exit (rawbuf : Nat → Nat) (rawlen i hash : Nat) (h : ¬ i + 2 < rawlen) :
    decodeHash_loop rawbuf rawlen i hash = hash := by
  rw [decodeHash_loop]
  simp only [h, if_false]

theorem decodeHash_loop_congr (b1 b2 : Nat → Nat) (rawlen : Nat) :
    ∀ (m i hash : Nat), rawlen - i = m →
      (∀ j, i ≤ j → j + 2 < rawlen →
        IRrecv_compare (b1 j) (b1 (j + 2)) = IRrecv_compare (b2 j) (b2 (j + 2))) →
      decodeHash_loop b1 rawlen i hash = decodeHash_loop b2 rawlen i hash := by
  intro m
  induction m with
  | zero =>
    intro i hash hm _
    rw [decodeHash_loop_exit _ _ _ _ (by omega), decodeHash_loop_exit _ _ _ _ (by omega)]
  | succ m ih =>
    intro i hash hm hc
    by_cases h : i + 2 < rawlen
    · rw [decodeHash_loop_step _ _ _ _ h, decodeHash_loop_step _ _ _ _ h, hc i (Nat.le_refl i) h]
      exact ih (i + 1) _ (by omega) (fun j hj hj2 => hc j (by omega) hj2)
    · rw [decodeHash_loop_exit _ _ _ _ h, decodeHash_loop_exit _ _ _ _ h]

theorem decodeHash_loop_eq_hashFold (rawbuf : Nat → Nat) (rawlen : Nat) :
    ∀ (m k : Nat), rawlen - 3 - k = m → k + 3 ≤ rawlen →
      decodeHash_loop rawbuf rawlen (k + 1) (hashFold rawbuf k) = hashFold rawbuf (rawlen - 3) := by
  intro m
  induction m with
  | zero =>
    intro k hm hk
    have hk2 : k = rawlen - 3 := by omega
    rw [decodeHash_loop_exit _ _ _ _ (by omega), hk2]
  | succ m ih =>
    intro k hm hk
    rw [decodeHash_loop_step _ _ _ _ (by omega)]
    have := ih (k + 1) (by omega) (by omega)
    rw [hashFold] at this
    exact this

theorem IRrecv_decodeHash_long (results : ir_decode_results) (h : 6 ≤ results.rawlen) :
    IRrecv_decodeHash results =
      (1, { results with
        value := decodeHash_loop results.rawbuf results.rawlen 1 IR_FNV_BASIS_32,
        bits := 32, decode_type := decode_type_t.UNKNOWN }) := by
  unfold IRrecv_decodeHash
  simp only [show ¬ results.rawlen < 6 by omega, if_false]

theorem IRrecv_decodeHash_short (results : ir_decode_results) (h : results.rawlen < 6) :
    IRrecv_decodeHash results = (0, results) := by
  unfold IRrecv_decodeHash
  simp only [h, if_true]

theorem IRrecv_decodeHash_value (results : ir_decode_results) (h : 6 ≤ results.rawlen) :
    (IRrecv_decodeHash results).2.value = hashFold results.rawbuf (results.rawlen - 3) := by
  rw [IRrecv_decodeHash_long results h]
  exact decodeHash_loop_eq_hashFold results.rawbuf results.rawlen (results.rawlen - 3) 0 rfl
    (by omega)

/-! ## Properties of the hash decoder and the coordinator -/

/-- C1: for every result with rawlen at least 6, `IRrecv_decodeHash` stores in
`value` the fold `h_(rawlen - 3)` of the recurrence `hashFold`; when rawlen is 7 and
entries 1 to 6 of the buffer are all 10, the four symbols are all 1 and the value
is `fold(2166136261, [1,1,1,1]) = 833731233`. -/
theorem C1_decodeHash_value_is_fold (results : ir_decode_results) (h : 6 ≤ results.rawlen) :
    (IRrecv_decodeHash results).2.value = hashFold results.rawbuf (results.rawlen - 3) ∧
      (results.rawlen = 7 → (∀ i, 1 ≤ i → i ≤ 6 → results.rawbuf i = 10) →
        (∀ i, 1 ≤ i → i ≤ 4 →
          IRrecv_compare (results.rawbuf i) (results.rawbuf (i + 2)) = 1) ∧
        (IRrecv_decodeHash results).2.value = symbolFold 2166136261 [1, 1, 1, 1] ∧
        (IRrecv_decodeHash results).2.value = 833731233) := by
  refine ⟨IRrecv_decodeHash_value results h, fun h7 hbuf => ?_⟩
  have hsym : ∀ i, 1 ≤ i → i ≤ 4 →
      IRrecv_compare (results.rawbuf i) (results.rawbuf (i + 2)) = 1 := by
    intro i h1 h4
    rw [hbuf i h1 (by omega), hbuf (i + 2) (by omega) (by omega)]
    decide
  have hval : (IRrecv_decodeHash results).2.value = 833731233 := by
    rw [IRrecv_decodeHash_value results h, h7]
    show hashFold results.rawbuf 4 = 833731233
    simp only [hashFold]
    rw [hbuf 1 (by omega) (by omega), hbuf 2 (by omega) (by omega),
      hbuf 3 (by omega) (by omega), hbuf 4 (by omega) (by omega),
      hbuf 5 (by omega) (by omega), hbuf 6 (by omega) (by omega)]
    decide
  exact ⟨hsym, hval.trans (by decide), hval⟩

/-- Witness of C1 at the seven-entry buffer of tens. -/
theorem C1_decodeHash_value_is_fold_witness :
    6 ≤ results7.rawlen ∧ (IRrecv_decodeHash results7).2.value = 833731233 :=
  ⟨by decide,
    ((C1_decodeHash_value_is_fold results7 (by decide)).2 rfl (fun _ _ _ => rfl)).2.2⟩

/-- C2: for every result with rawlen below 6, `IRrecv_decodeHash` returns 0 and
leaves the result as it was, in particular its value, bits and decode_type. -/
theorem C2_decodeHash_declines_short (results : ir_decode_results) (h : results.rawlen < 6) :
    (IRrecv_decodeHash results).1 = 0 ∧ (IRrecv_decodeHash results).2 = results ∧
      (IRrecv_decodeHash results).2.value = results.value ∧
      (IRrecv_decodeHash results).2.bits = results.bits ∧
      (IRrecv_decodeHash results).2.decode_type = results.decode_type := by
  rw [IRrecv_decodeHash_short results h]
  exact ⟨rfl, rfl, rfl, rfl, rfl⟩

/-- Witness of C2 at a five-entry result. -/
theorem C2_decodeHash_declines_short_witness :
    results5.rawlen < 6 ∧ (IRrecv_decodeHash results5).1 = 0 ∧
      (IRrecv_decodeHash results5).2.value = 77 ∧ (IRrecv_decodeHash results5).2.bits = 13 ∧
      (IRrecv_decodeHash results5).2.decode_type = decode_type_t.RC5 :=
  have w := C2_decodeHash_declines_short results5 (by decide)
  ⟨by decide, w.1, w.2.2.1, w.2.2.2.1, w.2.2.2.2⟩

/-- C3: for every result with rawlen at least 6, whatever the buffer holds,
`IRrecv_decodeHash` returns 1 and sets bits to 32 and decode_type to UNKNOWN. -/
theorem C3_decodeHash_accepts_long (results : ir_decode_results) (h : 6 ≤ results.rawlen) :
    (IRrecv_decodeHash results).1 = 1 ∧ (IRrecv_decodeHash results).2.bits = 32 ∧
      (IRrecv_decodeHash results).2.decode_type = decode_type_t.UNKNOWN := by
  rw [IRrecv_decodeHash_long results h]
  exact ⟨rfl, rfl, rfl⟩

/-- Witness of C3 at the seven-entry buffer of tens. -/
theorem C3_decodeHash_accepts_long_witness :
    6 ≤ results7.rawlen ∧ (IRrecv_decodeHash results7).1 = 1 ∧
      (IRrecv_decodeHash results7).2.bits = 32 ∧
      (IRrecv_decodeHash results7).2.decode_type = decode_type_t.UNKNOWN :=
  ⟨by decide, C3_decodeHash_accepts_long results7 (by decide)⟩

/-! ## Lemmas on the coordinator -/

theorem IRrecv_decode_not_stop (cfg : decoders_t) (irparams : irparams_t)
    (results : ir_decode_results) (h : irparams.rcvstate ≠ rcvstate_t.IR_STATE_STOP) :
    IRrecv_decode cfg irparams results = (0, irparams, snapshot irparams results) := by
  unfold IRrecv_decode
  simp only [h, ne_eq, not_false_eq_true, if_true, snapshot]

theorem IRrecv_decode_stop (cfg : decoders_t) (irparams : irparams_t)
    (results : ir_decode_results) (h : irparams.rcvstate = rcvstate_t.IR_STATE_STOP) :
    IRrecv_decode cfg irparams results =
      if (afterSony cfg (snapshot irparams results)).1 ≠ 0 then
        (1, irparams, (afterSony cfg (snapshot irparams results)).2)
      else if (afterRC5 cfg (snapshot irparams results)).1 ≠ 0 then
        (1, irparams, (afterRC5 cfg (snapshot irparams results)).2)
      else if (afterRC6 cfg (snapshot irparams results)).1 ≠ 0 then
        (1, irparams, (afterRC6 cfg (snapshot irparams results)).2)
      else if (IRrecv_decodeHash (afterRC6 cfg (snapshot irparams results)).2).1 ≠ 0 then
        (1, irparams, (IRrecv_decodeHash (afterRC6 cfg (snapshot irparams results)).2).2)
      else
        (0, IRrecv_resume irparams,
          (IRrecv_decodeHash (afterRC6 cfg (snapshot irparams results)).2).2) := by
  unfold IRrecv_decode
  simp only [h, ne_eq, not_true_eq_false, if_false, snapshot, afterSony, afterRC5, afterRC6]

theorem attempt_keepsCapture (dec : Option decoder_t)
    (h : ∀ f, dec = some f → keepsCapture f) (r : ir_decode_results) :
    (attempt dec r).2.rawbuf = r.rawbuf ∧ (attempt dec r).2.rawlen = r.rawlen ∧
      (attempt dec r).2.overflow = r.overflow := by
  cases dec with
  | none => exact ⟨rfl, rfl, rfl⟩
  | some f => exact h f rfl r

theorem afterRC6_keepsCapture (cfg : decoders_t) (h : cfg.keepCapture) (r : ir_decode_results) :
    (afterRC6 cfg r).2.rawbuf = r.rawbuf ∧ (afterRC6 cfg r).2.rawlen = r.rawlen ∧
      (afterRC6 cfg r).2.overflow = r.overflow := by
  have h1 := attempt_keepsCapture cfg.IRrecv_decodeSony (fun f hf => h f (Or.inl hf)) r
  have h2 := attempt_keepsCapture cfg.IRrecv_decodeRC5 (fun f hf => h f (Or.inr (Or.inl hf)))
    (afterSony cfg r).2
  have h3 := attempt_keepsCapture cfg.IRrecv_decodeRC6 (fun f hf => h f (Or.inr (Or.inr hf)))
    (afterRC5 cfg r).2
  unfold afterRC6
  unfold afterRC5 at h3 ⊢
  unfold afterSony at h2 h3 ⊢
  exact ⟨h3.1.trans (h2.1.trans h1.1), h3.2.1.trans (h2.2.1.trans h1.2.1),
    h3.2.2.trans (h2.2.2.trans h1.2.2)⟩

theorem noDecoders_keepCapture : noDecoders.keepCapture := by
  intro f hf
  rcases hf with hf | hf | hf <;> exact absurd hf (by simp [noDecoders])

theorem decliners_keepCapture : decliners.keepCapture := by
  intro f hf r
  have hf2 : f = fun r => (0, r) := by
    rcases hf with hf | hf | hf
    · exact (Option.some.inj hf).symm
    · exact absurd hf (by simp [decliners])
    · exact (Option.some.inj hf).symm
  subst hf2
  exact ⟨rfl, rfl, rfl⟩

/-- C4: when `IRrecv_decode` is called with rcvstate different from
`IR_STATE_STOP`, it returns 0, leaves the capture state as it was (so its rcvstate
and rawlen are unchanged), leaves value, bits and decode_type of the result
untouched, and its outcome does not depend on the configured decoders. -/
theorem C4_decode_not_ready (cfg : decoders_t) (irparams : irparams_t)
    (results : ir_decode_results) (h : irparams.rcvstate ≠ rcvstate_t.IR_STATE_STOP) :
    (IRrecv_decode cfg irparams results).1 = 0 ∧
      (IRrecv_decode cfg irparams results).2.1 = irparams ∧
      (IRrecv_decode cfg irparams results).2.1.rcvstate = irparams.rcvstate ∧
      (IRrecv_decode cfg irparams results).2.1.rawlen = irparams.rawlen ∧
      (IRrecv_decode cfg irparams results).2.2.value = results.value ∧
      (IRrecv_decode cfg irparams results).2.2.bits = results.bits ∧
      (IRrecv_decode cfg irparams results).2.2.decode_type = results.decode_type ∧
      (∀ cfg2 : decoders_t,
        IRrecv_decode cfg2 irparams results = IRrecv_decode cfg irparams results) := by
  refine ⟨?_, ?_, ?_, ?_, ?_, ?_, ?_, fun cfg2 => ?_⟩ <;>
    simp only [IRrecv_decode_not_stop _ irparams results h, snapshot]

/-- Witness of C4: a reception in progress, with decoders that would accept. -/
theorem C4_decode_not_ready_witness :
    receiving.rcvstate ≠ rcvstate_t.IR_STATE_STOP ∧
      (IRrecv_decode rc5First receiving results7).1 = 0 ∧
      (IRrecv_decode rc5First receiving results7).2.1.rawlen = 3 ∧
      (IRrecv_decode rc5First receiving results7).2.2.value = 5 :=
  have w := C4_decode_not_ready rc5First receiving results7 (by decide)
  ⟨by decide, w.1, w.2.2.2.1, w.2.2.2.2.1⟩

/-- C5: when `IRrecv_decode` is called with rcvstate `IR_STATE_STOP`, every
enabled fixed-protocol decoder declines, the decoders leave the captured data
alone, and rawlen is below 6, then `IRrecv_decode` returns 0 and afterwards
rcvstate is `IR_STATE_IDLE` and rawlen is 0. -/
theorem C5_decode_discards_short (cfg : decoders_t) (irparams : irparams_t)
    (results : ir_decode_results) (hstop : irparams.rcvstate = rcvstate_t.IR_STATE_STOP)
    (hkeep : cfg.keepCapture) (hdecline : allFixedDecline cfg (snapshot irparams results))
    (hlen : irparams.rawlen < 6) :
    (IRrecv_decode cfg irparams results).1 = 0 ∧
      (IRrecv_decode cfg irparams results).2.1.rcvstate = rcvstate_t.IR_STATE_IDLE ∧
      (IRrecv_decode cfg irparams results).2.1.rawlen = 0 := by
  obtain ⟨h1, h2, h3⟩ := hdecline
  have hl : (afterRC6 cfg (snapshot irparams results)).2.rawlen < 6 := by
    rw [(afterRC6_keepsCapture cfg hkeep _).2.1]
    exact hlen
  rw [IRrecv_decode_stop cfg irparams results hstop, if_neg (not_not.mpr h1),
    if_neg (not_not.mpr h2), if_neg (not_not.mpr h3), IRrecv_decodeHash_short _ hl,
    if_neg (not_not.mpr rfl)]
  exact ⟨rfl, rfl, rfl⟩

/-- Witness of C5: a completed capture of five entries, decoders that decline. -/
theorem C5_decode_discards_short_witness :
    (stopped 5).rawlen = 5 ∧ (IRrecv_decode decliners (stopped 5) results7).1 = 0 ∧
      (IRrecv_decode decliners (stopped 5) results7).2.1.rcvstate = rcvstate_t.IR_STATE_IDLE ∧
      (IRrecv_decode decliners (stopped 5) results7).2.1.rawlen = 0 :=
  ⟨rfl, C5_decode_discards_short decliners (stopped 5) results7 rfl decliners_keepCapture
    ⟨rfl, rfl, rfl⟩ (by decide)⟩

/-- C6: whenever `IRrecv_decode` returns 1 the capture state is not reset: it is
the same as before the call (rawlen, overflow and buffer included) and its
rcvstate is still `IR_STATE_STOP`.  In particular, from every STOP state with
rawlen at least 6 in which all fixed decoders decline (leaving the captured data
alone), `IRrecv_decode` returns 1 and the capture state is unchanged. -/
theorem C6_decode_success_keeps_capture (cfg : decoders_t) (irparams : irparams_t)
    (results : ir_decode_results) :
    ((IRrecv_decode cfg irparams results).1 = 1 →
      (IRrecv_decode cfg irparams results).2.1 = irparams ∧
      (IRrecv_decode cfg irparams results).2.1.rcvstate = rcvstate_t.IR_STATE_STOP) ∧
    (irparams.rcvstate = rcvstate_t.IR_STATE_STOP → 6 ≤ irparams.rawlen → cfg.keepCapture →
      allFixedDecline cfg (snapshot irparams results) →
      (IRrecv_decode cfg irparams results).1 = 1 ∧
      (IRrecv_decode cfg irparams results).2.1 = irparams) := by
  constructor
  · intro h1
    by_cases hstop : irparams.rcvstate = rcvstate_t.IR_STATE_STOP
    · rw [IRrecv_decode_stop cfg irparams results hstop] at h1 ⊢
      split_ifs at h1 ⊢
      · exact ⟨rfl, hstop⟩
      · exact ⟨rfl, hstop⟩
      · exact ⟨rfl, hstop⟩
      · exact ⟨rfl, hstop⟩
    · rw [IRrecv_decode_not_stop cfg irparams results hstop] at h1
      exact absurd h1 Nat.zero_ne_one
  · intro hstop hlen hkeep hdecline
    obtain ⟨h1, h2, h3⟩ := hdecline
    have hl : 6 ≤ (afterRC6 cfg (snapshot irparams results)).2.rawlen := by
      rw [(afterRC6_keepsCapture cfg hkeep _).2.1]
      exact hlen
    rw [IRrecv_decode_stop cfg irparams results hstop, if_neg (not_not.mpr h1),
      if_neg (not_not.mpr h2), if_neg (not_not.mpr h3), IRrecv_decodeHash_long _ hl,
      if_pos Nat.one_ne_zero]
    exact ⟨rfl, rfl⟩

/-- Witness of C6: a completed capture of seven entries claimed by the hash
decoder. -/
theorem C6_decode_success_keeps_capture_witness :
    (IRrecv_decode decliners (stopped 7) results5).1 = 1 ∧
      (IRrecv_decode decliners (stopped 7) results5).2.1 = stopped 7 ∧
      (IRrecv_decode decliners (stopped 7) results5).2.1.rcvstate = rcvstate_t.IR_STATE_STOP :=
  have w := (C6_decode_success_keeps_capture decliners (stopped 7) results5).2 rfl (by decide)
    decliners_keepCapture ⟨rfl, rfl, rfl⟩
  ⟨w.1, ((C6_decode_success_keeps_capture decliners (stopped 7) results5).1 w.1).1,
    ((C6_decode_success_keeps_capture decliners (stopped 7) results5).1 w.1).2⟩

theorem attempt_reportsKind (dec : Option decoder_t)
    (h : ∀ f, dec = some f → reportsKind f) (r : ir_decode_results)
    (hacc : (attempt dec r).1 ≠ 0) : (attempt dec r).2.decode_type ≠ decode_type_t.UNKNOWN := by
  cases dec with
  | none => exact absurd rfl hacc
  | some f => exact h f rfl r hacc

theorem rc5First_reportKind : rc5First.reportKind := by
  intro f hf r hacc
  rcases hf with hf | hf | hf
  · have hf2 := (Option.some.inj hf).symm
    subst hf2
    exact absurd rfl hacc
  · have hf2 := (Option.some.inj hf).symm
    subst hf2
    intro hk
    exact decode_type_t.noConfusion hk
  · have hf2 := (Option.some.inj hf).symm
    subst hf2
    intro hk
    exact decode_type_t.noConfusion hk

/-- C7: in `IRrecv_decode` with rcvstate `IR_STATE_STOP` the decoders are
consulted in the order Sony, RC5, RC6, hash and the first that accepts determines
the result: the call returns 1 with exactly the result that decoder left, the
hash decoder does not alter it, and (when the decoders report their own protocol
kind) decode_type is not `UNKNOWN`, whatever rawlen is.  Only when all fixed
decoders decline is the outcome that of the hash decoder. -/
theorem C7_decode_priority (cfg : decoders_t) (irparams : irparams_t)
    (results : ir_decode_results) (hstop : irparams.rcvstate = rcvstate_t.IR_STATE_STOP) :
    ((afterSony cfg (snapshot irparams results)).1 ≠ 0 →
      IRrecv_decode cfg irparams results =
        (1, irparams, (afterSony cfg (snapshot irparams results)).2)) ∧
    ((afterSony cfg (snapshot irparams results)).1 = 0 →
      (afterRC5 cfg (snapshot irparams results)).1 ≠ 0 →
      IRrecv_decode cfg irparams results =
        (1, irparams, (afterRC5 cfg (snapshot irparams results)).2)) ∧
    ((afterSony cfg (snapshot irparams results)).1 = 0 →
      (afterRC5 cfg (snapshot irparams results)).1 = 0 →
      (afterRC6 cfg (snapshot irparams results)).1 ≠ 0 →
      IRrecv_decode cfg irparams results =
        (1, irparams, (afterRC6 cfg (snapshot irparams results)).2)) ∧
    (allFixedDecline cfg (snapshot irparams results) →
      IRrecv_decode cfg irparams results =
        if (IRrecv_decodeHash (afterRC6 cfg (snapshot irparams results)).2).1 ≠ 0 then
          (1, irparams, (IRrecv_decodeHash (afterRC6 cfg (snapshot irparams results)).2).2)
        else
          (0, IRrecv_resume irparams,
            (IRrecv_decodeHash (afterRC6 cfg (snapshot irparams results)).2).2)) ∧
    (cfg.reportKind → ¬ allFixedDecline cfg (snapshot irparams results) →
      (IRrecv_decode cfg irparams results).1 = 1 ∧
      (IRrecv_decode cfg irparams results).2.2.decode_type ≠ decode_type_t.UNKNOWN) := by
  rw [IRrecv_decode_stop cfg irparams results hstop]
  refine ⟨fun h1 => ?_, fun h1 h2 => ?_, fun h1 h2 h3 => ?_, fun hd => ?_, fun hk hnd => ?_⟩
  · rw [if_pos h1]
  · rw [if_neg (not_not.mpr h1), if_pos h2]
  · rw [if_neg (not_not.mpr h1), if_neg (not_not.mpr h2), if_pos h3]
  · rw [if_neg (not_not.mpr hd.1), if_neg (not_not.mpr hd.2.1), if_neg (not_not.mpr hd.2.2)]
  · by_cases h1 : (afterSony cfg (snapshot irparams results)).1 = 0
    · by_cases h2 : (afterRC5 cfg (snapshot irparams results)).1 = 0
      · by_cases h3 : (afterRC6 cfg (snapshot irparams results)).1 = 0
        · exact absurd ⟨h1, h2, h3⟩ hnd
        · rw [if_neg (not_not.mpr h1), if_neg (not_not.mpr h2), if_pos h3]
          exact ⟨rfl, attempt_reportsKind _ (fun f hf => hk f (Or.inr (Or.inr hf))) _ h3⟩
      · rw [if_neg (not_not.mpr h1), if_pos h2]
        exact ⟨rfl, attempt_reportsKind _ (fun f hf => hk f (Or.inr (Or.inl hf))) _ h2⟩
    · rw [if_pos h1]
      exact ⟨rfl, attempt_reportsKind _ (fun f hf => hk f (Or.inl hf)) _ h1⟩

/-- Witness of C7: Sony declines, RC5 and RC6 would both accept, and the capture
of seven entries would satisfy the hash decoder: the result is that of RC5. -/
theorem C7_decode_priority_witness :
    6 ≤ (stopped 7).rawlen ∧ (IRrecv_decode rc5First (stopped 7) results7).1 = 1 ∧
      (IRrecv_decode rc5First (stopped 7) results7).2.2.decode_type = decode_type_t.RC5 ∧
      (IRrecv_decode rc5First (stopped 7) results7).2.2.value = 1234 ∧
      (IRrecv_decode rc5First (stopped 7) results7).2.2.bits = 13 ∧
      (IRrecv_decode rc5First (stopped 7) results7).2.2.decode_type ≠ decode_type_t.UNKNOWN :=
  have w := (C7_decode_priority rc5First (stopped 7) results7 rfl).2.1 rfl Nat.one_ne_zero
  have k := (C7_decode_priority rc5First (stopped 7) results7 rfl).2.2.2.2 rc5First_reportKind
    (fun hd => absurd hd.2.1 Nat.one_ne_zero)
  ⟨by decide, congrArg Prod.fst w, congrArg (fun o => o.2.2.decode_type) w,
    congrArg (fun o => o.2.2.value) w, congrArg (fun o => o.2.2.bits) w, k.2⟩

/-- C8: from every capture state `IRrecv_resume` yields rcvstate `IR_STATE_IDLE`
and rawlen 0, and applying it twice gives the same state as applying it once. -/
theorem C8_resume_resets_idempotent (irparams : irparams_t) :
    (IRrecv_resume irparams).rcvstate = rcvstate_t.IR_STATE_IDLE ∧
      (IRrecv_resume irparams).rawlen = 0 ∧
      IRrecv_resume (IRrecv_resume irparams) = IRrecv_resume irparams :=
  ⟨rfl, rfl, rfl⟩

/-- C9: for all unsigned 32-bit `a` and `b`, `IRrecv_compare a b` and
`IRrecv_compare b a` are never both 2, and `IRrecv_compare a a = 1` for `a > 0`. -/
theorem C9_compare_antisymmetric (a b : Nat) (ha : a < 2 ^ 32) (hb : b < 2 ^ 32) :
    ¬ (IRrecv_compare a b = 2 ∧ IRrecv_compare b a = 2) ∧
      (0 < a → IRrecv_compare a a = 1) := by
  constructor
  · rw [IRrecv_compare_eq_band a b ha hb, IRrecv_compare_eq_band b a hb ha]
    rintro ⟨h1, h2⟩
    split_ifs at h1 h2
    all_goals omega
  · intro _
    rw [IRrecv_compare_eq_band a a ha ha]
    split_ifs <;> omega

/-- Witness of C9 at a pair 20 percent apart and at the largest 32-bit value. -/
theorem C9_compare_antisymmetric_witness :
    ¬ (IRrecv_compare 4294967295 3435973836 = 2 ∧
        IRrecv_compare 3435973836 4294967295 = 2) ∧
      IRrecv_compare 4294967295 4294967295 = 1 :=
  have w := C9_compare_antisymmetric 4294967295 3435973836 (by decide) (by decide)
  ⟨w.1, w.2 (by decide)⟩

/-- C10: for every result with rawlen at least 6 and every factor `k ≥ 1` such
that the scaled durations `k * rawbuf[i]` (for `1 ≤ i < rawlen`) fit in 32 bits,
`IRrecv_decodeHash` produces the same value on the buffer and on the buffer with
every duration multiplied by `k`; and two results with identical buffers and
lengths produce identical values. -/
theorem C10_hash_scale_invariant (results : ir_decode_results) (k : Nat)
    (hlen : 6 ≤ results.rawlen) (hk : 1 ≤ k)
    (hfit : ∀ i, 1 ≤ i → i < results.rawlen → k * results.rawbuf i < 2 ^ 32) :
    (IRrecv_decodeHash (scaleBuffer k results)).2.value = (IRrecv_decodeHash results).2.value ∧
      (∀ other : ir_decode_results, other.rawlen = results.rawlen →
        (∀ i, other.rawbuf i = results.rawbuf i) →
        (IRrecv_decodeHash other).2.value = (IRrecv_decodeHash results).2.value) := by
  constructor
  · rw [IRrecv_decodeHash_long (scaleBuffer k results) hlen, IRrecv_decodeHash_long results hlen]
    show decodeHash_loop (fun i => k * results.rawbuf i) results.rawlen 1 IR_FNV_BASIS_32 =
      decodeHash_loop results.rawbuf results.rawlen 1 IR_FNV_BASIS_32
    refine decodeHash_loop_congr _ _ _ _ 1 _ rfl (fun j hj hj2 => ?_)
    exact IRrecv_compare_scale k _ _ hk (hfit j hj (by omega)) (hfit (j + 2) (by omega) hj2)
  · intro other hl hb
    have hfun : other.rawbuf = results.rawbuf := funext hb
    rw [IRrecv_decodeHash_long other (by omega), IRrecv_decodeHash_long results hlen]
    show decodeHash_loop other.rawbuf other.rawlen 1 IR_FNV_BASIS_32 =
      decodeHash_loop results.rawbuf results.rawlen 1 IR_FNV_BASIS_32
    rw [hfun, hl]

/-- Witness of C10: the seven-entry buffer of tens scaled by 3. -/
theorem C10_hash_scale_invariant_witness :
    (IRrecv_decodeHash (scaleBuffer 3 results7)).2.value = (IRrecv_decodeHash results7).2.value :=
  (C10_hash_scale_invariant results7 3 (by decide) (by decide) (fun _ _ _ => show 3 * 10 < 2 ^ 32 by decide)).1

/-! ## The tolerance band, the snapshot and the reads of the hash loop -/

/-- C11: for all unsigned 32-bit `oldval` and `newval`, `IRrecv_compare` returns
0 exactly when `5 * newval < 4 * oldval`, otherwise 2 exactly when
`5 * oldval < 4 * newval`, and 1 otherwise; for instance `compare(10, 7) = 0`,
`compare(7, 10) = 2`, `compare(10, 8) = 1` and `compare(5, 4) = 1`. -/
theorem C11_compare_exact_band (oldval newval : Nat) (ho : oldval < 2 ^ 32)
    (hn : newval < 2 ^ 32) :
    (IRrecv_compare oldval newval = 0 ↔ 5 * newval < 4 * oldval) ∧
      (IRrecv_compare oldval newval = 2 ↔
        ¬ 5 * newval < 4 * oldval ∧ 5 * oldval < 4 * newval) ∧
      (IRrecv_compare oldval newval = 1 ↔
        ¬ 5 * newval < 4 * oldval ∧ ¬ 5 * oldval < 4 * newval) ∧
      IRrecv_compare 10 7 = 0 ∧ IRrecv_compare 7 10 = 2 ∧
      IRrecv_compare 10 8 = 1 ∧ IRrecv_compare 5 4 = 1 := by
  rw [IRrecv_compare_eq_band oldval newval ho hn]
  refine ⟨?_, ?_, ?_, by decide, by decide, by decide, by decide⟩
  · split_ifs <;> simp_all
  · split_ifs <;> simp_all
  · split_ifs <;> simp_all

/-- Witness of C11 at the largest 32-bit value and its exact 80 percent. -/
theorem C11_compare_exact_band_witness :
    (IRrecv_compare 4294967295 3435973836 = 1 ↔
      ¬ 5 * 3435973836 < 4 * 4294967295 ∧ ¬ 5 * 4294967295 < 4 * 3435973836) :=
  (C11_compare_exact_band 4294967295 3435973836 (by decide) (by decide)).2.2.1

theorem IRrecv_decodeHash_keeps (results : ir_decode_results) :
    (IRrecv_decodeHash results).2.rawbuf = results.rawbuf ∧
      (IRrecv_decodeHash results).2.rawlen = results.rawlen ∧
      (IRrecv_decodeHash results).2.overflow = results.overflow := by
  by_cases h : results.rawlen < 6
  · rw [IRrecv_decodeHash_short results h]
    exact ⟨rfl, rfl, rfl⟩
  · rw [IRrecv_decodeHash_long results (by omega)]
    exact ⟨rfl, rfl, rfl⟩

theorem afterSony_keepsCapture (cfg : decoders_t) (h : cfg.keepCapture) (r : ir_decode_results) :
    (afterSony cfg r).2.rawbuf = r.rawbuf ∧ (afterSony cfg r).2.rawlen = r.rawlen ∧
      (afterSony cfg r).2.overflow = r.overflow :=
  attempt_keepsCapture cfg.IRrecv_decodeSony (fun f hf => h f (Or.inl hf)) r

theorem afterRC5_keepsCapture (cfg : decoders_t) (h : cfg.keepCapture) (r : ir_decode_results) :
    (afterRC5 cfg r).2.rawbuf = r.rawbuf ∧ (afterRC5 cfg r).2.rawlen = r.rawlen ∧
      (afterRC5 cfg r).2.overflow = r.overflow := by
  have h1 := afterSony_keepsCapture cfg h r
  have h2 := attempt_keepsCapture cfg.IRrecv_decodeRC5 (fun f hf => h f (Or.inr (Or.inl hf)))
    (afterSony cfg r).2
  unfold afterRC5
  exact ⟨h2.1.trans h1.1, h2.2.1.trans h1.2.1, h2.2.2.trans h1.2.2⟩

theorem IRrecv_decode_snapshot (cfg : decoders_t) (irparams : irparams_t)
    (results : ir_decode_results) (hkeep : cfg.keepCapture) :
    (IRrecv_decode cfg irparams results).2.2.rawbuf = irparams.rawbuf ∧
      (IRrecv_decode cfg irparams results).2.2.rawlen = irparams.rawlen ∧
      (IRrecv_decode cfg irparams results).2.2.overflow = irparams.overflow := by
  by_cases hstop : irparams.rcvstate = rcvstate_t.IR_STATE_STOP
  · have k1 := afterSony_keepsCapture cfg hkeep (snapshot irparams results)
    have k2 := afterRC5_keepsCapture cfg hkeep (snapshot irparams results)
    have k3 := afterRC6_keepsCapture cfg hkeep (snapshot irparams results)
    have k4 := IRrecv_decodeHash_keeps (afterRC6 cfg (snapshot irparams results)).2
    rw [IRrecv_decode_stop cfg irparams results hstop]
    split_ifs
    · exact k1
    · exact k2
    · exact k3
    · exact ⟨k4.1.trans k3.1, k4.2.1.trans k3.2.1, k4.2.2.trans k3.2.2⟩
    · exact ⟨k4.1.trans k3.1, k4.2.1.trans k3.2.1, k4.2.2.trans k3.2.2⟩
  · rw [IRrecv_decode_not_stop cfg irparams results hstop]
    exact ⟨rfl, rfl, rfl⟩

theorem IRrecv_decode_capture (cfg : decoders_t) (irparams : irparams_t)
    (results : ir_decode_results) :
    (IRrecv_decode cfg irparams results).2.1 = irparams ∨
      (IRrecv_decode cfg irparams results).2.1 = IRrecv_resume irparams := by
  by_cases hstop : irparams.rcvstate = rcvstate_t.IR_STATE_STOP
  · rw [IRrecv_decode_stop cfg irparams results hstop]
    split_ifs
    · exact Or.inl rfl
    · exact Or.inl rfl
    · exact Or.inl rfl
    · exact Or.inl rfl
    · exact Or.inr rfl
  · rw [IRrecv_decode_not_stop cfg irparams results hstop]
    exact Or.inl rfl

/-- C12: for every capture state, after `IRrecv_decode` (with fixed decoders that
leave the captured data alone) the rawbuf, rawlen and overflow of the result are
those of the capture state at the moment of the call, also when the call
discards the capture and zeroes its length; and after a later `IRrecv_resume`
the buffer the result points to and the overflow flag of the capture state still
hold those same values. -/
theorem C12_decode_snapshot (cfg : decoders_t) (irparams : irparams_t)
    (results : ir_decode_results) (hkeep : cfg.keepCapture) :
    (IRrecv_decode cfg irparams results).2.2.rawbuf = irparams.rawbuf ∧
      (IRrecv_decode cfg irparams results).2.2.rawlen = irparams.rawlen ∧
      (IRrecv_decode cfg irparams results).2.2.overflow = irparams.overflow ∧
      (IRrecv_resume (IRrecv_decode cfg irparams results).2.1).rawbuf =
        (IRrecv_decode cfg irparams results).2.2.rawbuf ∧
      (IRrecv_resume (IRrecv_decode cfg irparams results).2.1).overflow =
        (IRrecv_decode cfg irparams results).2.2.overflow := by
  obtain ⟨h1, h2, h3⟩ := IRrecv_decode_snapshot cfg irparams results hkeep
  refine ⟨h1, h2, h3, ?_, ?_⟩
  · rw [h1]
    rcases IRrecv_decode_capture cfg irparams results with h | h <;> rw [h] <;> rfl
  · rw [h3]
    rcases IRrecv_decode_capture cfg irparams results with h | h <;> rw [h] <;> rfl

/-- Witness of C12: an overflowed capture shows its flag and length in the result,
and a forced discard of a five-entry capture leaves the rawlen of the result at 5
while the capture length becomes 0. -/
theorem C12_decode_snapshot_witness :
    (IRrecv_decode decliners overflowed results5).2.2.overflow = 1 ∧
      (IRrecv_decode decliners overflowed results5).2.2.rawlen = 100 ∧
      (IRrecv_decode decliners (stopped 5) results7).2.2.rawlen = 5 :=
  ⟨(C12_decode_snapshot decliners overflowed results5 decliners_keepCapture).2.2.1,
    (C12_decode_snapshot decliners overflowed results5 decliners_keepCapture).2.1,
    (C12_decode_snapshot decliners (stopped 5) results7 decliners_keepCapture).2.1⟩

theorem decodeHash_loop_traced_spec (rawbuf : Nat → Nat) (rawlen : Nat) :
    ∀ (m i hash : Nat) (reads : List Nat) (count : Nat), rawlen - i = m →
      (decodeHash_loop_traced rawbuf rawlen i hash reads count).1 =
          decodeHash_loop rawbuf rawlen i hash ∧
        (∀ idx ∈ (decodeHash_loop_traced rawbuf rawlen i hash reads count).2.1,
          idx ∈ reads ∨ (i ≤ idx ∧ idx < rawlen)) ∧
        (decodeHash_loop_traced rawbuf rawlen i hash reads count).2.2 =
          count + (rawlen - (i + 2)) := by
  intro m
  induction m with
  | zero =>
    intro i hash reads count hm
    have hexit : ¬ i + 2 < rawlen := by omega
    rw [decodeHash_loop_traced, decodeHash_loop_exit _ _ _ _ hexit]
    simp only [hexit, if_false]
    exact ⟨trivial, fun idx hidx => Or.inl hidx, by omega⟩
  | succ m ih =>
    intro i hash reads count hm
    by_cases h : i + 2 < rawlen
    · rw [decodeHash_loop_traced, decodeHash_loop_step _ _ _ _ h]
      simp only [h, if_true]
      obtain ⟨h1, h2, h3⟩ := ih (i + 1)
        (((hash * IR_FNV_PRIME_32) % 2 ^ 32) ^^^ IRrecv_compare (rawbuf i) (rawbuf (i + 2)))
        (reads ++ [i, i + 2]) (count + 1) (by omega)
      refine ⟨h1, fun idx hidx => ?_, by omega⟩
      rcases h2 idx hidx with hin | hrange
      · rcases List.mem_append.1 hin with hr | hnew
        · exact Or.inl hr
        · simp only [List.mem_cons, List.mem_singleton, List.not_mem_nil, or_false] at hnew
          exact Or.inr (by omega)
      · exact Or.inr (by omega)
    · rw [decodeHash_loop_traced, decodeHash_loop_exit _ _ _ _ h]
      simp only [h, if_false]
      exact ⟨trivial, fun idx hidx => Or.inl hidx, by omega⟩

/-- C13: for every rawlen of at least 6 the instrumented loop of
`IRrecv_decodeHash` computes the same value as the loop itself, every index of the
buffer it reads lies between 1 and rawlen - 1, hence below the capacity whenever
rawlen does not exceed it, and it stops after exactly rawlen - 3 iterations. -/
theorem C13_decodeHash_reads_in_bounds (results : ir_decode_results) (capacity : Nat)
    (hlen : 6 ≤ results.rawlen) (hcap : results.rawlen ≤ capacity) :
    (decodeHash_loop_traced results.rawbuf results.rawlen 1 IR_FNV_BASIS_32 [] 0).1 =
        (IRrecv_decodeHash results).2.value ∧
      (∀ idx ∈ (decodeHash_loop_traced results.rawbuf results.rawlen 1 IR_FNV_BASIS_32 [] 0).2.1,
        1 ≤ idx ∧ idx ≤ results.rawlen - 1 ∧ idx < capacity) ∧
      (decodeHash_loop_traced results.rawbuf results.rawlen 1 IR_FNV_BASIS_32 [] 0).2.2 =
        results.rawlen - 3 := by
  obtain ⟨h1, h2, h3⟩ := decodeHash_loop_traced_spec results.rawbuf results.rawlen
    (results.rawlen - 1) 1 IR_FNV_BASIS_32 [] 0 rfl
  rw [IRrecv_decodeHash_long results hlen]
  refine ⟨h1, fun idx hidx => ?_, by omega⟩
  rcases h2 idx hidx with hin | hrange
  · exact absurd hin (List.not_mem_nil idx)
  · omega

/-- Witness of C13: a capture that filled a buffer of 100 entries. -/
theorem C13_decodeHash_reads_in_bounds_witness :
    (decodeHash_loop_traced (snapshot overflowed results5).rawbuf 100 1 IR_FNV_BASIS_32 [] 0).2.2
        = 97 ∧
      (decodeHash_loop_traced (snapshot overflowed results5).rawbuf 100 1 IR_FNV_BASIS_32 [] 0).1
        = (IRrecv_decodeHash (snapshot overflowed results5)).2.value :=
  have w := C13_decodeHash_reads_in_bounds (snapshot overflowed results5) 100 (by decide)
    (by decide)
  ⟨w.2.2, w.1⟩

/-! ## The capture-state invariant, antisymmetry and the accumulator width -/

theorem captureInvariant_resume (capacity : Nat) (irparams : irparams_t) :
    captureInvariant capacity (IRrecv_resume irparams) :=
  ⟨Nat.zero_le capacity, fun _ => rfl⟩

/-- C14: the mainline operations preserve the capture-state invariant
`rawlen <= capacity and (rcvstate = IR_STATE_IDLE implies rawlen = 0)`:
`IRrecv_IRrecvInit`, `IRrecv_IRrecvInitBlink`, `IRrecv_enableIRIn` (whenever it
returns), `IRrecv_isIdle`, `IRrecv_resume` and `IRrecv_decode` (whose fixed
decoders and `IRrecv_decodeHash` work on the result only).  `IRrecv_resume` and
`IRrecv_enableIRIn` establish it from any state, and `IRrecv_enableIRIn` returns
whenever the timer calls succeed or `Error_Handler` returns. -/
theorem C14_invariant_preserved (capacity : Nat) (irparams : irparams_t) :
    (captureInvariant capacity irparams →
      (∀ port pin, captureInvariant capacity (IRrecv_IRrecvInit port pin irparams)) ∧
      (∀ port pin bport bpin,
        captureInvariant capacity (IRrecv_IRrecvInitBlink port pin bport bpin irparams)) ∧
      captureInvariant capacity (IRrecv_isIdle irparams).2 ∧
      (∀ cfg results, captureInvariant capacity (IRrecv_decode cfg irparams results).2.1)) ∧
    captureInvariant capacity (IRrecv_resume irparams) ∧
    (∀ hal s, IRrecv_enableIRIn hal irparams = some s → captureInvariant capacity s) ∧
    (∀ hal : hal_t,
      (hal.Error_Handler_returns = true ∨
        (hal.HAL_TIM_Base_Init_ok = true ∧ hal.HAL_TIM_ConfigClockSource_ok = true ∧
          hal.HAL_TIM_Base_Start_IT_ok = true)) →
      IRrecv_enableIRIn hal irparams =
        some { irparams with rcvstate := rcvstate_t.IR_STATE_IDLE, rawlen := 0 }) := by
  refine ⟨fun hinv => ⟨fun _ _ => hinv, fun _ _ _ _ => hinv, hinv, fun cfg results => ?_⟩,
    captureInvariant_resume capacity irparams, fun hal s hs => ?_, fun hal hok => ?_⟩
  · rcases IRrecv_decode_capture cfg irparams results with h | h
    · rw [h]; exact hinv
    · rw [h]; exact captureInvariant_resume capacity irparams
  · unfold IRrecv_enableIRIn at hs
    split_ifs at hs
    rw [← Option.some.inj hs]
    exact ⟨Nat.zero_le capacity, fun _ => rfl⟩
  · unfold IRrecv_enableIRIn
    rcases hok with hr | ⟨h1, h2, h3⟩
    · simp [hr]
    · simp [h1, h2, h3]

/-- Witness of C14: a five-entry capture that `IRrecv_decode` discards, within a
buffer of 100 entries. -/
theorem C14_invariant_preserved_witness :
    captureInvariant 100 (stopped 5) ∧
      captureInvariant 100 (IRrecv_decode decliners (stopped 5) results7).2.1 :=
  have hinv : captureInvariant 100 (stopped 5) :=
    ⟨by decide, fun h => absurd h (by decide)⟩
  ⟨hinv, ((C14_invariant_preserved 100 (stopped 5)).1 hinv).2.2.2 decliners results7⟩

/-- C15: for all unsigned 32-bit `a` and `b`,
`IRrecv_compare a b + IRrecv_compare b a = 2`: the first is 0 exactly when the
second is 2, the first is 1 exactly when the second is 1, the two are never both
0, and `IRrecv_compare 0 0 = 1`. -/
theorem C15_compare_sum_two (a b : Nat) (ha : a < 2 ^ 32) (hb : b < 2 ^ 32) :
    IRrecv_compare a b + IRrecv_compare b a = 2 ∧
      (IRrecv_compare a b = 0 ↔ IRrecv_compare b a = 2) ∧
      (IRrecv_compare a b = 1 ↔ IRrecv_compare b a = 1) ∧
      ¬ (IRrecv_compare a b = 0 ∧ IRrecv_compare b a = 0) ∧
      IRrecv_compare 0 0 = 1 := by
  rw [IRrecv_compare_eq_band a b ha hb, IRrecv_compare_eq_band b a hb ha]
  refine ⟨?_, ?_, ?_, ?_, by decide⟩
  · split_ifs <;> omega
  · split_ifs <;> first | omega | simp
  · split_ifs <;> first | omega | simp
  · rintro ⟨h1, h2⟩
    split_ifs at h1 h2
    all_goals omega

/-- Witness of C15 at a pair more than 20 percent apart. -/
theorem C15_compare_sum_two_witness :
    IRrecv_compare 4000000000 3000000000 + IRrecv_compare 3000000000 4000000000 = 2 :=
  (C15_compare_sum_two 4000000000 3000000000 (by decide) (by decide)).1

theorem IRrecv_compare_le_two (a b : Nat) : IRrecv_compare a b ≤ 2 := by
  unfold IRrecv_compare
  split_ifs <;> omega

theorem IRrecv_compare_lt (a b : Nat) : IRrecv_compare a b < 2 ^ 32 :=
  lt_of_le_of_lt (IRrecv_compare_le_two a b) (by decide)

theorem xor_mod_two_pow32 (x c : Nat) (hc : c < 2 ^ 32) :
    (x ^^^ c) % 2 ^ 32 = (x % 2 ^ 32) ^^^ c := by
  apply Nat.eq_of_testBit_eq
  intro i
  simp only [Nat.testBit_mod_two_pow, Nat.testBit_xor]
  by_cases hi : i < 32
  · simp [hi]
  · have hci : c.testBit i = false :=
      Nat.testBit_lt_two_pow (lt_of_lt_of_le hc (Nat.pow_le_pow_right (by decide) (by omega)))
    simp [hi, hci]

theorem step_width_mod (w x p c : Nat) (hw : 32 ≤ w) (hc : c < 2 ^ 32) :
    (((x * p) % 2 ^ w) ^^^ c) % 2 ^ 32 = (((x % 2 ^ 32) * p) % 2 ^ 32) ^^^ c := by
  rw [xor_mod_two_pow32 _ _ hc, Nat.mod_mod_of_dvd _ (Nat.pow_dvd_pow 2 hw), Nat.mod_mul_mod]

theorem step_unbounded_mod (x p c : Nat) (hc : c < 2 ^ 32) :
    ((x * p) ^^^ c) % 2 ^ 32 = (((x % 2 ^ 32) * p) % 2 ^ 32) ^^^ c := by
  rw [xor_mod_two_pow32 _ _ hc, Nat.mod_mul_mod]

theorem decodeHash_loop_width_mod (w : Nat) (hw : 32 ≤ w) (rawbuf : Nat → Nat) (rawlen : Nat) :
    ∀ (m i wide hash : Nat), rawlen - i = m → hash < 2 ^ 32 → wide % 2 ^ 32 = hash →
      decodeHash_loop_width w rawbuf rawlen i wide % 2 ^ 32 =
        decodeHash_loop rawbuf rawlen i hash := by
  intro m
  induction m with
  | zero =>
    intro i wide hash hm _ heq
    have hexit : ¬ i + 2 < rawlen := by omega
    rw [decodeHash_loop_width, decodeHash_loop_exit _ _ _ _ hexit]
    simp only [hexit, if_false]
    exact heq
  | succ m ih =>
    intro i wide hash hm hlt heq
    by_cases h : i + 2 < rawlen
    · rw [decodeHash_loop_width, decodeHash_loop_step _ _ _ _ h]
      simp only [h, if_true]
      refine ih (i + 1) _ _ (by omega) ?_ ?_
      · exact Nat.xor_lt_two_pow (Nat.mod_lt _ (by decide)) (IRrecv_compare_lt _ _)
      · rw [step_width_mod w wide _ _ hw (IRrecv_compare_lt _ _), heq]
    · rw [decodeHash_loop_width, decodeHash_loop_exit _ _ _ _ h]
      simp only [h, if_false]
      exact heq

theorem decodeHash_loop_unbounded_mod (rawbuf : Nat → Nat) (rawlen : Nat) :
    ∀ (m i wide hash : Nat), rawlen - i = m → hash < 2 ^ 32 → wide % 2 ^ 32 = hash →
      decodeHash_loop_unbounded rawbuf rawlen i wide % 2 ^ 32 =
        decodeHash_loop rawbuf rawlen i hash := by
  intro m
  induction m with
  | zero =>
    intro i wide hash hm _ heq
    have hexit : ¬ i + 2 < rawlen := by omega
    rw [decodeHash_loop_unbounded, decodeHash_loop_exit _ _ _ _ hexit]
    simp only [hexit, if_false]
    exact heq
  | succ m ih =>
    intro i wide hash hm hlt heq
    by_cases h : i + 2 < rawlen
    · rw [decodeHash_loop_unbounded, decodeHash_loop_step _ _ _ _ h]
      simp only [h, if_true]
      refine ih (i + 1) _ _ (by omega) ?_ ?_
      · exact Nat.xor_lt_two_pow (Nat.mod_lt _ (by decide)) (IRrecv_compare_lt _ _)
      · rw [step_unbounded_mod wide _ _ (IRrecv_compare_lt _ _), heq]
    · rw [decodeHash_loop_unbounded, decodeHash_loop_exit _ _ _ _ h]
      simp only [h, if_false]
      exact heq

/-- C16: for every result with rawlen at least 6, running the fold of
`IRrecv_decodeHash` with an accumulator of any width `w ≥ 32` (for instance 64), or
of unbounded width, and reducing only the final accumulator modulo `2 ^ 32` gives
the value `IRrecv_decodeHash` stores. -/
theorem C16_hash_width_independent (results : ir_decode_results) (w : Nat)
    (hlen : 6 ≤ results.rawlen) (hw : 32 ≤ w) :
    decodeHash_loop_width w results.rawbuf results.rawlen 1 IR_FNV_BASIS_32 % 2 ^ 32 =
        (IRrecv_decodeHash results).2.value ∧
      decodeHash_loop_width 64 results.rawbuf results.rawlen 1 IR_FNV_BASIS_32 % 2 ^ 32 =
        (IRrecv_decodeHash results).2.value ∧
      decodeHash_loop_unbounded results.rawbuf results.rawlen 1 IR_FNV_BASIS_32 % 2 ^ 32 =
        (IRrecv_decodeHash results).2.value := by
  have hb : IR_FNV_BASIS_32 < 2 ^ 32 := by decide
  have hm : IR_FNV_BASIS_32 % 2 ^ 32 = IR_FNV_BASIS_32 := Nat.mod_eq_of_lt hb
  rw [IRrecv_decodeHash_long results hlen]
  exact ⟨decodeHash_loop_width_mod w hw _ _ _ 1 _ _ rfl hb hm,
    decodeHash_loop_width_mod 64 (by decide) _ _ _ 1 _ _ rfl hb hm,
    decodeHash_loop_unbounded_mod _ _ _ 1 _ _ rfl hb hm⟩

/-- Witness of C16: the seven-entry buffer of tens with a 48-bit and with an
unbounded accumulator. -/
theorem C16_hash_width_independent_witness :
    decodeHash_loop_width 48 results7.rawbuf results7.rawlen 1 IR_FNV_BASIS_32 % 2 ^ 32 =
        (IRrecv_decodeHash results7).2.value ∧
      decodeHash_loop_unbounded results7.rawbuf results7.rawlen 1 IR_FNV_BASIS_32 % 2 ^ 32 =
        (IRrecv_decodeHash results7).2.value :=
  have w := C16_hash_width_independent results7 48 (by decide) (by decide)
  ⟨w.1, w.2.2⟩

/-! ## Dependence of the hash on the buffer -/

/-- C17 fails as stated for short results: two results with the same rawlen (5)
and the same buffer but other previous contents of value, bits and decode_type
keep those different contents. -/
theorem C17_short_results_keep_previous_outputs :
    results5.rawlen = results5b.rawlen ∧ results5.rawbuf = results5b.rawbuf ∧
      (IRrecv_decodeHash results5).2.value = 77 ∧ (IRrecv_decodeHash results5b).2.value = 78 ∧
      (IRrecv_decodeHash results5).2.value ≠ (IRrecv_decodeHash results5b).2.value ∧
      (IRrecv_decodeHash results5).2.bits ≠ (IRrecv_decodeHash results5b).2.bits ∧
      (IRrecv_decodeHash results5).2.decode_type ≠
        (IRrecv_decodeHash results5b).2.decode_type := by
  rw [IRrecv_decodeHash_short results5 (by decide), IRrecv_decodeHash_short results5b (by decide)]
  exact ⟨rfl, rfl, rfl, rfl, by decide, by decide, by decide⟩

/-- C17 (amended): two results with the same rawlen whose buffers agree on the
indices 1 to rawlen - 1 get the same return code from `IRrecv_decodeHash`; when
rawlen is at least 6 they also get the same value, bits and decode_type, whatever
their other fields hold; when rawlen is below 6 the return code is 0 and each
result is left as it was. -/
theorem C17_decodeHash_depends_on_entries (r1 r2 : ir_decode_results)
    (hlen : r1.rawlen = r2.rawlen)
    (hbuf : ∀ i, 1 ≤ i → i < r1.rawlen → r1.rawbuf i = r2.rawbuf i) :
    (IRrecv_decodeHash r1).1 = (IRrecv_decodeHash r2).1 ∧
      (6 ≤ r1.rawlen →
        (IRrecv_decodeHash r1).2.value = (IRrecv_decodeHash r2).2.value ∧
        (IRrecv_decodeHash r1).2.bits = (IRrecv_decodeHash r2).2.bits ∧
        (IRrecv_decodeHash r1).2.decode_type = (IRrecv_decodeHash r2).2.decode_type) ∧
      (r1.rawlen < 6 →
        (IRrecv_decodeHash r1).1 = 0 ∧ (IRrecv_decodeHash r1).2 = r1 ∧
        (IRrecv_decodeHash r2).2 = r2) := by
  have hloop : decodeHash_loop r1.rawbuf r1.rawlen 1 IR_FNV_BASIS_32 =
      decodeHash_loop r2.rawbuf r2.rawlen 1 IR_FNV_BASIS_32 := by
    rw [← hlen]
    refine decodeHash_loop_congr _ _ _ _ 1 _ rfl (fun j hj hj2 => ?_)
    rw [hbuf j hj (by omega), hbuf (j + 2) (by omega) hj2]
  by_cases h : r1.rawlen < 6
  · rw [IRrecv_decodeHash_short r1 h, IRrecv_decodeHash_short r2 (by omega)]
    exact ⟨rfl, fun h6 => absurd h6 (by omega), fun _ => ⟨rfl, rfl, rfl⟩⟩
  · rw [IRrecv_decodeHash_long r1 (by omega), IRrecv_decodeHash_long r2 (by omega)]
    exact ⟨rfl, fun _ => ⟨hloop, rfl, rfl⟩, fun h6 => absurd h6 h⟩

/-- Witness of C17: the seven-entry buffer of tens against a result that differs
in entry 0, beyond the length, in the overflow flag and in its output fields. -/
theorem C17_decodeHash_depends_on_entries_witness :
    (IRrecv_decodeHash results7).2.value =
      (IRrecv_decodeHash
        { decode_type := decode_type_t.RC6, value := 9, bits := 1,
          rawbuf := fun i => if i = 0 ∨ 7 ≤ i then 55 else 10, rawlen := 7,
          overflow := 1 }).2.value :=
  ((C17_decodeHash_depends_on_entries results7
    { decode_type := decode_type_t.RC6, value := 9, bits := 1,
      rawbuf := fun i => if i = 0 ∨ 7 ≤ i then 55 else 10, rawlen := 7, overflow := 1 }
    rfl
    (fun i h1 h7 => (if_neg (fun h => h.elim (fun h0 => absurd h0 (by omega))
      (fun h7b => absurd h7b (Nat.not_le.2 h7)))).symm)).2.1 (by decide)).1

theorem hashFold_lt (rawbuf : Nat → Nat) (k : Nat) : hashFold rawbuf k < 2 ^ 32 := by
  cases k with
  | zero =>
    show (2166136261 : Nat) < 2 ^ 32
    decide
  | succ k =>
    rw [hashFold]
    exact Nat.xor_lt_two_pow (Nat.mod_lt _ (by decide)) (IRrecv_compare_lt _ _)

theorem hashFold_succ (rawbuf : Nat → Nat) (k : Nat) :
    hashFold rawbuf (k + 1) = hashStep (hashFold rawbuf k) (symbolAt rawbuf (k + 1)) := rfl

theorem hashStep_left_injective (c h1 h2 : Nat) (hh1 : h1 < 2 ^ 32) (hh2 : h2 < 2 ^ 32)
    (h : hashStep h1 c = hashStep h2 c) : h1 = h2 := by
  unfold hashStep at h
  have hmod : (h1 * 16777619) % 2 ^ 32 = (h2 * 16777619) % 2 ^ 32 := Nat.xor_left_inj.1 h
  have hcop : Nat.gcd (2 ^ 32) 16777619 = 1 := by norm_num
  have := Nat.ModEq.cancel_right_of_coprime hcop hmod
  unfold Nat.ModEq at this
  rwa [Nat.mod_eq_of_lt hh1, Nat.mod_eq_of_lt hh2] at this

theorem hashStep_right_injective (h c1 c2 : Nat) (he : hashStep h c1 = hashStep h c2) :
    c1 = c2 := by
  unfold hashStep at he
  exact Nat.xor_right_inj.1 he

theorem hashStep_surjective (c t : Nat) (hc : c < 2 ^ 32) (ht : t < 2 ^ 32) :
    ∃ h, h < 2 ^ 32 ∧ hashStep h c = t := by
  refine ⟨((t ^^^ c) * 899433627) % 2 ^ 32, Nat.mod_lt _ (by decide), ?_⟩
  unfold hashStep
  have hx : t ^^^ c < 2 ^ 32 := Nat.xor_lt_two_pow ht hc
  have hm : (((t ^^^ c) * 899433627) % 2 ^ 32 * 16777619) % 2 ^ 32 = t ^^^ c := by
    generalize t ^^^ c = x at hx
    omega
  rw [hm, Nat.xor_cancel_right]

theorem hashFold_agree (b1 b2 : Nat → Nat) :
    ∀ m, (∀ i, 1 ≤ i → i ≤ m → symbolAt b1 i = symbolAt b2 i) →
      hashFold b1 m = hashFold b2 m := by
  intro m
  induction m with
  | zero => intro _; rfl
  | succ m ih =>
    intro h
    rw [hashFold_succ, hashFold_succ, ih (fun i h1 h2 => h i h1 (by omega)),
      h (m + 1) (by omega) (Nat.le_refl _)]

theorem hashFold_differ (b1 b2 : Nat → Nat) (k : Nat) (hk : hashFold b1 k ≠ hashFold b2 k) :
    ∀ d, (∀ i, k < i → i ≤ k + d → symbolAt b1 i = symbolAt b2 i) →
      hashFold b1 (k + d) ≠ hashFold b2 (k + d) := by
  intro d
  induction d with
  | zero => intro _; exact hk
  | succ d ih =>
    intro h heq
    have hprev := ih (fun i h1 h2 => h i h1 (by omega))
    rw [← Nat.add_assoc, hashFold_succ, hashFold_succ,
      h (k + d + 1) (by omega) (by omega)] at heq
    exact hprev (hashStep_left_injective _ _ _ (hashFold_lt _ _) (hashFold_lt _ _) heq)

/-- C18: two results of the same rawlen of at least 6 whose sequences of
comparison symbols (positions 1 to rawlen - 3) differ in exactly one position get
different values from `IRrecv_decodeHash`; each fold step is injective and onto
on 32-bit accumulators for a fixed symbol, and injective in the symbol for a
fixed accumulator. -/
theorem C18_hash_single_symbol_sensitive (r1 r2 : ir_decode_results) (j : Nat)
    (hlen : 6 ≤ r1.rawlen) (hsame : r2.rawlen = r1.rawlen)
    (hj1 : 1 ≤ j) (hj2 : j + 2 < r1.rawlen)
    (hdiff : symbolAt r1.rawbuf j ≠ symbolAt r2.rawbuf j)
    (hrest : ∀ i, 1 ≤ i → i + 2 < r1.rawlen → i ≠ j →
      symbolAt r1.rawbuf i = symbolAt r2.rawbuf i) :
    (IRrecv_decodeHash r1).2.value ≠ (IRrecv_decodeHash r2).2.value ∧
      (∀ c h1 h2, h1 < 2 ^ 32 → h2 < 2 ^ 32 → hashStep h1 c = hashStep h2 c → h1 = h2) ∧
      (∀ c t, c < 2 ^ 32 → t < 2 ^ 32 → ∃ h, h < 2 ^ 32 ∧ hashStep h c = t) ∧
      (∀ h c1 c2, hashStep h c1 = hashStep h c2 → c1 = c2) := by
  refine ⟨?_, hashStep_left_injective, hashStep_surjective, hashStep_right_injective⟩
  rw [IRrecv_decodeHash_value r1 hlen, IRrecv_decodeHash_value r2 (by omega), hsame]
  obtain ⟨k, rfl⟩ : ∃ k, j = k + 1 := ⟨j - 1, by omega⟩
  have hbefore : hashFold r1.rawbuf k = hashFold r2.rawbuf k :=
    hashFold_agree _ _ k (fun i h1 h2 => hrest i h1 (by omega) (by omega))
  have hat : hashFold r1.rawbuf (k + 1) ≠ hashFold r2.rawbuf (k + 1) := by
    rw [hashFold_succ, hashFold_succ, hbefore]
    exact fun he => hdiff (hashStep_right_injective _ _ _ he)
  have hend := hashFold_differ _ _ (k + 1) hat (r1.rawlen - 3 - (k + 1))
    (fun i h1 h2 => hrest i (by omega) (by omega) (by omega))
  rwa [show k + 1 + (r1.rawlen - 3 - (k + 1)) = r1.rawlen - 3 by omega] at hend

/-- Witness of C18: doubling the first duration of the seven-entry buffer of tens
changes the symbol of position 1 only, and the value changes. -/
theorem C18_hash_single_symbol_sensitive_witness :
    (IRrecv_decodeHash results7).2.value ≠ (IRrecv_decodeHash results7b).2.value :=
  (C18_hash_single_symbol_sensitive results7 results7b 1 (by decide) rfl (by decide) (by decide)
    (by decide)
    (fun i _ _ hne => by
      show IRrecv_compare 10 10 =
        IRrecv_compare (if i = 1 then 20 else 10) (if i + 2 = 1 then 20 else 10)
      rw [if_neg hne, if_neg (by omega)])).1

/-! ## Frame of `IRrecv_resume` and `IRrecv_isIdle` -/

/-- C19: `IRrecv_resume` changes only rcvstate and rawlen: the buffer, the
overflow flag, the receive pin and port, the blink pin and port and blinkflag are
unchanged, and the same fields are unchanged by `IRrecv_decode`, its forced
discard included; an overflow flag that is set is still set after
`IRrecv_resume` and after `IRrecv_decode`. -/
theorem C19_resume_frame (irparams : irparams_t) :
    (IRrecv_resume irparams).rawbuf = irparams.rawbuf ∧
      (IRrecv_resume irparams).overflow = irparams.overflow ∧
      (IRrecv_resume irparams).recvpin = irparams.recvpin ∧
      (IRrecv_resume irparams).recvpinport = irparams.recvpinport ∧
      (IRrecv_resume irparams).blinkpin = irparams.blinkpin ∧
      (IRrecv_resume irparams).blinkpinport = irparams.blinkpinport ∧
      (IRrecv_resume irparams).blinkflag = irparams.blinkflag ∧
      IRrecv_resume irparams =
        { irparams with rcvstate := rcvstate_t.IR_STATE_IDLE, rawlen := 0 } ∧
      (∀ cfg results,
        (IRrecv_decode cfg irparams results).2.1.rawbuf = irparams.rawbuf ∧
        (IRrecv_decode cfg irparams results).2.1.overflow = irparams.overflow ∧
        (IRrecv_decode cfg irparams results).2.1.recvpin = irparams.recvpin ∧
        (IRrecv_decode cfg irparams results).2.1.recvpinport = irparams.recvpinport ∧
        (IRrecv_decode cfg irparams results).2.1.blinkpin = irparams.blinkpin ∧
        (IRrecv_decode cfg irparams results).2.1.blinkpinport = irparams.blinkpinport ∧
        (IRrecv_decode cfg irparams results).2.1.blinkflag = irparams.blinkflag) ∧
      (irparams.overflow ≠ 0 →
        (IRrecv_resume irparams).overflow ≠ 0 ∧
        ∀ cfg results, (IRrecv_decode cfg irparams results).2.1.overflow ≠ 0) := by
  have hdec : ∀ cfg results,
      (IRrecv_decode cfg irparams results).2.1.rawbuf = irparams.rawbuf ∧
      (IRrecv_decode cfg irparams results).2.1.overflow = irparams.overflow ∧
      (IRrecv_decode cfg irparams results).2.1.recvpin = irparams.recvpin ∧
      (IRrecv_decode cfg irparams results).2.1.recvpinport = irparams.recvpinport ∧
      (IRrecv_decode cfg irparams results).2.1.blinkpin = irparams.blinkpin ∧
      (IRrecv_decode cfg irparams results).2.1.blinkpinport = irparams.blinkpinport ∧
      (IRrecv_decode cfg irparams results).2.1.blinkflag = irparams.blinkflag := by
    intro cfg results
    rcases IRrecv_decode_capture cfg irparams results with h | h <;> rw [h] <;>
      exact ⟨rfl, rfl, rfl, rfl, rfl, rfl, rfl⟩
  refine ⟨rfl, rfl, rfl, rfl, rfl, rfl, rfl, rfl, hdec, fun hov => ⟨hov, fun cfg results => ?_⟩⟩
  rw [(hdec cfg results).2.1]
  exact hov

/-- Witness of C19: an overflowed capture that `IRrecv_decode` discards (its
length set to 3 here, below the floor of the hash decoder). -/
theorem C19_resume_frame_witness :
    (IRrecv_resume overflowed).overflow ≠ 0 ∧
      (IRrecv_decode decliners { overflowed with rawlen := 3 } results7).2.1.overflow ≠ 0 :=
  have w := (C19_resume_frame { overflowed with rawlen := 3 }).2.2.2.2.2.2.2.2.2 (by decide)
  ⟨((C19_resume_frame overflowed).2.2.2.2.2.2.2.2.2 (by decide)).1, w.2 decliners results7⟩

/-- C20: `IRrecv_isIdle` returns 1 exactly when rcvstate is `IR_STATE_IDLE` or
`IR_STATE_STOP` and 0 in every other state, and leaves the capture state as it
was; so it returns 1 right after `IRrecv_resume` and while a completed message
waits in the STOP state. -/
theorem C20_isIdle (irparams : irparams_t) :
    ((IRrecv_isIdle irparams).1 = 1 ↔
      (irparams.rcvstate = rcvstate_t.IR_STATE_IDLE ∨
        irparams.rcvstate = rcvstate_t.IR_STATE_STOP)) ∧
      ((IRrecv_isIdle irparams).1 = 0 ↔
        ¬ (irparams.rcvstate = rcvstate_t.IR_STATE_IDLE ∨
          irparams.rcvstate = rcvstate_t.IR_STATE_STOP)) ∧
      (IRrecv_isIdle irparams).2 = irparams ∧
      (IRrecv_isIdle (IRrecv_resume irparams)).1 = 1 ∧
      (irparams.rcvstate = rcvstate_t.IR_STATE_STOP → (IRrecv_isIdle irparams).1 = 1) := by
  unfold IRrecv_isIdle
  refine ⟨?_, ?_, rfl, ?_, fun hs => ?_⟩
  · split_ifs with h <;> simp [h]
  · split_ifs with h <;> simp [h]
  · show (if (IRrecv_resume irparams).rcvstate = rcvstate_t.IR_STATE_IDLE ∨
        (IRrecv_resume irparams).rcvstate = rcvstate_t.IR_STATE_STOP then 1 else 0) = 1
    exact if_pos (Or.inl rfl)
  · show (if irparams.rcvstate = rcvstate_t.IR_STATE_IDLE ∨
        irparams.rcvstate = rcvstate_t.IR_STATE_STOP then 1 else 0) = 1
    exact if_pos (Or.inr hs)

/-- Witness of C20: a completed message waiting in the STOP state, and a
reception in progress. -/
theorem C20_isIdle_witness :
    (IRrecv_isIdle (stopped 7)).1 = 1 ∧ (IRrecv_isIdle receiving).1 = 0 :=
  ⟨(C20_isIdle (stopped 7)).2.2.2.2 rfl,
    (C20_isIdle receiving).2.1.2 (by decide)⟩

end IRremote
